import Mathlib

/-!
Shallow embedding of the sequential-numbering segmenter of
`src/crawler.py` (`JokeCrawler.extract_jokes`), together with proofs of the
behavioural claims of the specification.

The segmenter consumes an ordered list of paragraph strings and updates a
jokes dictionary (`self.jokes`, modelled as an insertion-ordered association
list with Python-dict assignment semantics).  Per-run scan variables
(`first_number`, `current_number`, `current_joke_text`) are locals of
`extract_jokes` and are modelled as a state record threaded through a fold.

Python's `str.strip` and the regex character classes `\s`/`\d` are modelled
over their ASCII parts (the source pages are plain text; Unicode-only
whitespace/digit codepoints are not distinguished by any claim).
-/

/-- Whitespace class of Python's `str.strip` and of `\s` in the regex
(ASCII part). -/
def isPySpace (c : Char) : Bool :=
  c = ' ' || c = '\t' || c = '\n' || c = '\r' || c = '\x0b' || c = '\x0c'

/-- Python `text.strip()`: remove leading and trailing whitespace. -/
def pyStrip (s : String) : String :=
  String.mk (((s.data.dropWhile isPySpace).reverse.dropWhile isPySpace).reverse)

/-- Value of a digit string, `int(match.group(1))` in the source. -/
def digitsVal (ds : List Char) : Nat :=
  ds.foldl (fun a c => a * 10 + (c.toNat - 48)) 0

/-- The regex step `re.match(r'^\s*(\d+)\s*(.*)', text)` of `crawler.py`
line 37: on success returns `(int(group(1)), group(2))`.  The pattern never
backtracks (`\s` and `\d` are disjoint, and `\s*`/`.*` match the empty
string), so greedy scanning is exact; `.` stops at the first newline. -/
def reMatchNum (text : String) : Option (Nat × String) :=
  let cs := text.data.dropWhile isPySpace
  let ds := cs.takeWhile Char.isDigit
  if ds.isEmpty then none
  else
    let after := (cs.dropWhile Char.isDigit).dropWhile isPySpace
    some (digitsVal ds, String.mk (after.takeWhile (fun c => c ≠ '\n')))

/-- The dictionary key `str(current_number - 1)` of lines 50 and 67.  The
subtraction is over Python's integers, hence over `Int` here. -/
def jokeKey (n : Nat) : String :=
  toString ((n : Int) - 1)

/-- Python `'\n'.join(lines)`. -/
def joinLines (lines : List String) : String :=
  String.intercalate "\n" lines

/-- Python-dict assignment `d[k] = v`: replace the value in place when the
key is present, append otherwise. -/
def dictSet (d : List (String × String)) (k v : String) : List (String × String) :=
  match d with
  | [] => [(k, v)]
  | e :: t => if e.1 = k then (k, v) :: t else e :: dictSet t k v

/-- Python-dict lookup `d[k]` (as an option). -/
def dictLookup (d : List (String × String)) (k : String) : Option String :=
  (d.find? (fun e => e.1 = k)).map (·.2)

/-- Truthiness of `current_number` in `if current_number:` (line 62) and
`if current_number and ...:` (line 32): `None` and `0` are falsy. -/
def numTruthy : Option Nat → Bool
  | none => false
  | some n => n != 0

/-- The state of one `extract_jokes` call: the shared dictionary
`self.jokes`, plus the locals `first_number`, `current_number` and
`current_joke_text`. -/
structure SegState where
  jokes : List (String × String)
  firstNumber : Option Nat
  currentNumber : Option Nat
  acc : List String
deriving Repr, DecidableEq

/-- The body of the `for` loop of `extract_jokes` (lines 29-63) for one
paragraph. -/
def stepPara (s : SegState) (p : String) : SegState :=
  let text := pyStrip p
  if text = "" then
    -- lines 31-34
    if numTruthy s.currentNumber && !s.acc.isEmpty then
      { s with acc := s.acc ++ [""] }
    else s
  else
    match reMatchNum text with
    | some (number, rest) =>
      -- lines 42-44
      let s1 := if s.firstNumber.isNone then
                  { s with firstNumber := some number, currentNumber := some number }
                else s
      if s1.currentNumber = some number then
        -- lines 47-56; under the guard `current_number = number`, so the
        -- key `str(current_number - 1)` of line 50 is `jokeKey number`
        let s2 := if !s1.acc.isEmpty then
                    { s1 with jokes := dictSet s1.jokes (jokeKey number) (joinLines s1.acc),
                              acc := [] }
                  else s1
        { s2 with currentNumber := some (number + 1), acc := [pyStrip rest] }
      else
        -- lines 57-59
        { s1 with acc := s1.acc ++ [text] }
    | none =>
      -- lines 60-63
      if numTruthy s.currentNumber then { s with acc := s.acc ++ [text] } else s

/-- `extract_jokes` (lines 29-67) starting from a dictionary `d`
(`self.jokes` as left by earlier calls; `[]` for a fresh crawler).  The
final flush `self.jokes[str(current_number-1)] = ...` of line 67 would
raise a `TypeError` if `current_number` were still `None`; that fault is
modelled as `none`. -/
def extract_jokes (d : List (String × String)) (paras : List String) :
    Option (List (String × String)) :=
  let s := paras.foldl stepPara { jokes := d, firstNumber := none, currentNumber := none, acc := [] }
  if s.acc.isEmpty then some s.jokes
  else
    match s.currentNumber with
    | some n => some (dictSet s.jokes (jokeKey n) (joinLines s.acc))
    | none => none

/-- A fresh segmentation run: `extract_jokes` on a newly constructed
crawler, whose `__init__` sets `self.jokes = {}`. -/
def segmentRun (paras : List String) : Option (List (String × String)) :=
  extract_jokes [] paras

/-- The scan-local part of the state: the loop variables of one call,
without the shared dictionary. -/
structure CoreState where
  firstNumber : Option Nat
  currentNumber : Option Nat
  acc : List String
deriving Repr, DecidableEq

/-- One loop iteration on the scan locals alone, also returning the list of
dictionary writes the iteration performs (empty or a single flush). -/
def stepCore (c : CoreState) (p : String) : CoreState × List (String × String) :=
  let text := pyStrip p
  if text = "" then
    if numTruthy c.currentNumber && !c.acc.isEmpty then
      ({ c with acc := c.acc ++ [""] }, [])
    else (c, [])
  else
    match reMatchNum text with
    | some (number, rest) =>
      let c1 := if c.firstNumber.isNone then
                  { c with firstNumber := some number, currentNumber := some number }
                else c
      if c1.currentNumber = some number then
        (⟨c1.firstNumber, some (number + 1), [pyStrip rest]⟩,
         if !c1.acc.isEmpty then [(jokeKey number, joinLines c1.acc)] else [])
      else ({ c1 with acc := c1.acc ++ [text] }, [])
    | none =>
      if numTruthy c.currentNumber then ({ c with acc := c.acc ++ [text] }, []) else (c, [])

/-- Replay a list of dictionary writes in order. -/
def applyLog (d : List (String × String)) (log : List (String × String)) :
    List (String × String) :=
  log.foldl (fun d e => dictSet d e.1 e.2) d

/-- Run the scan over a paragraph list from a given scan state, collecting
all dictionary writes in order. -/
def runCoreFrom (c : CoreState) (paras : List String) :
    CoreState × List (String × String) :=
  paras.foldl (fun acc p =>
    ((stepCore acc.1 p).1, acc.2 ++ (stepCore acc.1 p).2)) (c, [])

/-- Run the scan from the fresh scan state. -/
def runCore (paras : List String) : CoreState × List (String × String) :=
  runCoreFrom ⟨none, none, []⟩ paras

/-- All dictionary writes of a fresh run, the final end-of-pass flush
included (`none` when that flush would fault on `current_number = None`). -/
def runEntries (paras : List String) : Option (List (String × String)) :=
  let r := runCore paras
  if r.1.acc.isEmpty then some r.2
  else
    match r.1.currentNumber with
    | some n => some (r.2 ++ [(jokeKey n, joinLines r.1.acc)])
    | none => none

/-- The scan-local fields of a full state. -/
def SegState.core (s : SegState) : CoreState :=
  ⟨s.firstNumber, s.currentNumber, s.acc⟩

/-- Reachability invariant of the scan locals: `first_number` and
`current_number` are set together; while they are unset the accumulator is
empty; once they are set, `current_number` is a positive integer (it always
holds `number + 1` of some matched number) and the accumulator is non-empty
(an entry is in progress). -/
def invB (c : CoreState) : Bool :=
  (c.firstNumber.isSome == c.currentNumber.isSome) &&
    (match c.currentNumber with
     | none => c.acc.isEmpty
     | some n => decide (1 ≤ n) && !c.acc.isEmpty)

/-- The last value a write log assigns to a key, if any. -/
def logLast (log : List (String × String)) (k : String) : Option String :=
  (log.reverse.find? (fun e => e.1 = k)).map (·.2)

/-- Trace invariant of a run: either no paragraph has matched yet (and the
scan state is untouched, with an empty write log), or the first matched
number was `n`, the pass has flushed `m` entries so far, `current_number`
is `n + m + 1`, and the keys written so far are the decimal strings of
`n, n + 1, ..., n + m - 1` in order. -/
def TraceInv (c : CoreState) (log : List (String × String)) : Prop :=
  (c.firstNumber = none ∧ c.currentNumber = none ∧ c.acc = [] ∧ log = [])
  ∨ ∃ n m, c.firstNumber = some n ∧ c.currentNumber = some (n + m + 1) ∧ c.acc ≠ [] ∧
      log.map Prod.fst = (List.range m).map (fun i => Nat.repr (n + i))

lemma stepPara_eq_core (s : SegState) (p : String) :
    stepPara s p =
      ⟨applyLog s.jokes (stepCore s.core p).2,
       (stepCore s.core p).1.firstNumber,
       (stepCore s.core p).1.currentNumber,
       (stepCore s.core p).1.acc⟩ := by
  obtain ⟨j, f, c, a⟩ := s
  simp only [stepPara, stepCore, SegState.core]
  by_cases h0 : pyStrip p = ""
  · simp only [h0, if_pos rfl, reduceIte]
    by_cases h1 : numTruthy c && !List.isEmpty a <;> simp [h1, applyLog]
  · simp only [if_neg h0]
    cases hm : reMatchNum (pyStrip p) with
    | none =>
      by_cases h1 : numTruthy c <;> simp [h1, applyLog]
    | some nr =>
      obtain ⟨number, rest⟩ := nr
      by_cases hf : f = none
      · subst hf
        by_cases ha : List.isEmpty a <;> simp [ha, applyLog]
      · have hf' : Option.isNone f = false := by
          cases f with
          | none => exact absurd rfl hf
          | some x => rfl
        by_cases hc : c = some number
        · by_cases ha : List.isEmpty a <;> simp [hf', hc, ha, applyLog]
        · simp [hf', hc, applyLog]

lemma applyLog_append (d : List (String × String)) (l1 l2 : List (String × String)) :
    applyLog d (l1 ++ l2) = applyLog (applyLog d l1) l2 := by
  simp [applyLog, List.foldl_append]

lemma runCoreFrom_log (paras : List String) (c : CoreState)
    (log0 : List (String × String)) :
    paras.foldl (fun acc p => ((stepCore acc.1 p).1, acc.2 ++ (stepCore acc.1 p).2))
        (c, log0) =
      ((runCoreFrom c paras).1, log0 ++ (runCoreFrom c paras).2) := by
  induction paras generalizing c log0 with
  | nil => simp [runCoreFrom]
  | cons p t ih =>
    simp only [List.foldl_cons, runCoreFrom]
    rw [ih ((stepCore c p).1) (log0 ++ (stepCore c p).2)]
    conv => rhs; rw [show ([] : List (String × String)) ++ (stepCore c p).2 = (stepCore c p).2 from rfl]
    rw [ih ((stepCore c p).1) ((stepCore c p).2)]
    simp [List.append_assoc]

lemma CoreState.eta (c : CoreState) :
    (⟨c.firstNumber, c.currentNumber, c.acc⟩ : CoreState) = c := rfl

lemma runCoreFrom_cons (c : CoreState) (p : String) (t : List String) :
    runCoreFrom c (p :: t) =
      ((runCoreFrom (stepCore c p).1 t).1,
       (stepCore c p).2 ++ (runCoreFrom (stepCore c p).1 t).2) := by
  show (p :: t).foldl _ (c, []) = _
  simp only [List.foldl_cons, List.nil_append]
  exact runCoreFrom_log t ((stepCore c p).1) ((stepCore c p).2)

lemma foldl_stepPara_eq (paras : List String) (s : SegState) :
    paras.foldl stepPara s =
      ⟨applyLog s.jokes (runCoreFrom s.core paras).2,
       (runCoreFrom s.core paras).1.firstNumber,
       (runCoreFrom s.core paras).1.currentNumber,
       (runCoreFrom s.core paras).1.acc⟩ := by
  induction paras generalizing s with
  | nil => simp [runCoreFrom, applyLog, SegState.core]
  | cons p t ih =>
    simp only [List.foldl_cons]
    rw [ih (stepPara s p), stepPara_eq_core, runCoreFrom_cons]
    simp only [SegState.core, CoreState.eta, applyLog_append]

/-- Decomposition of a call of `extract_jokes`: the call performs exactly
the dictionary writes determined by the paragraph list alone (the scan
locals start fresh), replayed on top of whatever dictionary the crawler
already holds. -/
theorem extract_jokes_eq_runEntries (d : List (String × String)) (paras : List String) :
    extract_jokes d paras = (runEntries paras).map (applyLog d) := by
  have h := foldl_stepPara_eq paras ⟨d, none, none, []⟩
  unfold extract_jokes runEntries runCore
  rw [show ({ jokes := d, firstNumber := none, currentNumber := none, acc := [] } : SegState) =
        (⟨d, none, none, []⟩ : SegState) from rfl, h]
  rw [show (⟨d, none, none, []⟩ : SegState).core = (⟨none, none, []⟩ : CoreState) from rfl]
  by_cases ha : List.isEmpty (runCoreFrom (⟨none, none, []⟩ : CoreState) paras).1.acc
  · simp [ha]
  · cases hc : (runCoreFrom (⟨none, none, []⟩ : CoreState) paras).1.currentNumber with
    | none => simp [ha, hc]
    | some n => simp [ha, hc, applyLog_append, applyLog]

lemma invB_step (c : CoreState) (p : String) (h : invB c = true) :
    invB (stepCore c p).1 = true := by
  obtain ⟨f, cn, a⟩ := c
  cases cn with
  | none =>
    have hf : f = none := by
      cases f with
      | none => rfl
      | some m => simp [invB] at h
    have ha : a = [] := by
      simpa [invB, List.isEmpty_iff, hf] using h
    subst hf; subst ha
    unfold stepCore
    by_cases h0 : pyStrip p = "" <;> simp only [h0, reduceIte]
    · simp [numTruthy, invB]
    · cases hm : reMatchNum (pyStrip p) with
      | none => simp [numTruthy, invB]
      | some nr =>
        obtain ⟨number, rest⟩ := nr
        simp [invB]
  | some n =>
    obtain ⟨m, hf⟩ : ∃ m, f = some m := by
      cases f with
      | none => simp [invB] at h
      | some m => exact ⟨m, rfl⟩
    have hn : 1 ≤ n := by
      simp [invB] at h; exact h.2.1
    have ha : a ≠ [] := by
      simp [invB, List.isEmpty_iff] at h; exact h.2.2
    subst hf
    unfold stepCore
    by_cases h0 : pyStrip p = "" <;> simp only [h0, reduceIte]
    · have : numTruthy (some n) = true := by
        simp [numTruthy]; omega
      simp [this, List.isEmpty_iff, ha, invB]
      omega
    · cases hm : reMatchNum (pyStrip p) with
      | none =>
        have : numTruthy (some n) = true := by
          simp [numTruthy]; omega
        simp [this, invB, List.isEmpty_iff, ha]
        omega
      | some nr =>
        obtain ⟨number, rest⟩ := nr
        by_cases he : n = number
        · simp [he, invB, List.isEmpty_iff, ha]
        · simp [he, invB, List.isEmpty_iff, ha]
          omega

lemma invB_runCoreFrom (paras : List String) (c : CoreState) (h : invB c = true) :
    invB (runCoreFrom c paras).1 = true := by
  induction paras generalizing c with
  | nil => simpa [runCoreFrom] using h
  | cons p t ih =>
    rw [runCoreFrom_cons]
    exact ih _ (invB_step c p h)

lemma invB_runCore (paras : List String) : invB (runCore paras).1 = true :=
  invB_runCoreFrom paras ⟨none, none, []⟩ rfl

lemma runEntries_isSome (paras : List String) : (runEntries paras).isSome = true := by
  have h := invB_runCore paras
  unfold runEntries
  by_cases ha : List.isEmpty (runCore paras).1.acc
  · simp [ha]
  · cases hc : (runCore paras).1.currentNumber with
    | none =>
      exfalso
      rw [invB, hc] at h
      simp at h
      exact ha (by simp [h.2])
    | some n => simp [ha, hc]

lemma dictLookup_nil (k : String) : dictLookup [] k = none := rfl

lemma dictLookup_cons (e : String × String) (t : List (String × String)) (k : String) :
    dictLookup (e :: t) k = if e.1 = k then some e.2 else dictLookup t k := by
  rw [dictLookup, List.find?_cons]
  by_cases h : e.1 = k <;> simp [h, dictLookup]

lemma dictLookup_dictSet (d : List (String × String)) (k v k' : String) :
    dictLookup (dictSet d k v) k' = if k = k' then some v else dictLookup d k' := by
  induction d with
  | nil =>
    rw [dictSet, dictLookup_cons]
  | cons e t ih =>
    by_cases he : e.1 = k
    · rw [dictSet, if_pos he, dictLookup_cons, dictLookup_cons]
      by_cases h : k = k' <;> simp [he, h]
    · rw [dictSet, if_neg he, dictLookup_cons, dictLookup_cons, ih]
      by_cases h : k = k' <;> by_cases h2 : e.1 = k' <;> simp_all

lemma logLast_cons (e : String × String) (t : List (String × String)) (k : String) :
    logLast (e :: t) k = (logLast t k).or (if e.1 = k then some e.2 else none) := by
  rw [logLast, List.reverse_cons, List.find?_append]
  by_cases h : e.1 = k
  · simp [h, logLast, Option.or, List.find?]
    cases List.find? (fun e => e.1 = k) t.reverse <;> simp
  · simp [h, logLast, Option.or, List.find?]
    cases List.find? (fun e => e.1 = k) t.reverse <;> simp

lemma dictLookup_applyLog (log : List (String × String)) (d : List (String × String))
    (k : String) :
    dictLookup (applyLog d log) k = (logLast log k).or (dictLookup d k) := by
  induction log generalizing d with
  | nil => simp [applyLog, logLast, Option.none_or]
  | cons e t ih =>
    rw [show applyLog d (e :: t) = applyLog (dictSet d e.1 e.2) t from rfl, ih,
        logLast_cons, dictLookup_dictSet, Option.or_assoc]
    by_cases h : e.1 = k <;> simp [h, Option.or]

lemma digitChar_val (m : Nat) (h : m < 10) : (Nat.digitChar m).toNat - 48 = m := by
  interval_cases m <;> rfl

lemma digitsVal_append_one (ds : List Char) (d : Char) :
    digitsVal (ds ++ [d]) = digitsVal ds * 10 + (d.toNat - 48) := by
  unfold digitsVal
  rw [List.foldl_append]
  rfl

lemma toDigitsCore_spec (fuel : Nat) :
    ∀ n acc, n < fuel →
      ∃ ds, Nat.toDigitsCore 10 fuel n acc = ds ++ acc ∧ ds ≠ [] ∧ digitsVal ds = n := by
  induction fuel with
  | zero => intro n acc h; omega
  | succ f ih =>
    intro n acc h
    rw [Nat.toDigitsCore]
    by_cases h10 : n / 10 = 0
    · refine ⟨[Nat.digitChar (n % 10)], by simp [h10], by simp, ?_⟩
      have hlt : n < 10 := by omega
      have hmod : n % 10 = n := Nat.mod_eq_of_lt hlt
      simp [digitsVal, hmod, digitChar_val n hlt]
    · have hpos : 0 < n := by
        rcases Nat.eq_zero_or_pos n with h0 | h0
        · subst h0; simp at h10
        · exact h0
      have hn10 : n / 10 < f := by
        have := Nat.div_lt_self hpos (by omega : 1 < 10)
        omega
      obtain ⟨ds, heq, hne, hval⟩ := ih (n / 10) (Nat.digitChar (n % 10) :: acc) hn10
      refine ⟨ds ++ [Nat.digitChar (n % 10)], ?_, by simp, ?_⟩
      · rw [if_neg h10, heq, List.append_assoc, List.singleton_append]
      · rw [digitsVal_append_one, hval, digitChar_val (n % 10) (by omega)]
        omega

/-- Python's `int` round-trips `str` on naturals: reading the decimal
string of `n` back as a digit string yields `n`. -/
lemma digitsVal_repr (n : Nat) : digitsVal (Nat.repr n).data = n := by
  obtain ⟨ds, heq, _, hval⟩ := toDigitsCore_spec (n + 1) n [] (Nat.lt_succ_self n)
  show digitsVal (List.asString (Nat.toDigitsCore 10 (n + 1) n [])).data = n
  rw [heq, List.append_nil]
  show digitsVal ds = n
  exact hval

lemma natRepr_injective (a b : Nat) (h : Nat.repr a = Nat.repr b) : a = b := by
  have ha := digitsVal_repr a
  have hb := digitsVal_repr b
  rw [h] at ha
  omega

lemma jokeKey_succ (k : Nat) : jokeKey (k + 1) = Nat.repr k := by
  unfold jokeKey
  have : ((k + 1 : Nat) : Int) - 1 = (k : Int) := by push_cast; ring
  rw [this]
  rfl

lemma traceInv_step (c : CoreState) (log : List (String × String)) (p : String)
    (h : TraceInv c log) : TraceInv (stepCore c p).1 (log ++ (stepCore c p).2) := by
  obtain ⟨f, cn, a⟩ := c
  rcases h with ⟨hf, hc, ha, hlog⟩ | ⟨n, m, hf, hc, ha, hlog⟩
  · simp only at hf hc ha
    subst hf; subst hc; subst ha; subst hlog
    unfold stepCore
    by_cases h0 : pyStrip p = "" <;> simp only [h0, reduceIte]
    · exact Or.inl ⟨rfl, rfl, rfl, rfl⟩
    · cases hm : reMatchNum (pyStrip p) with
      | none => exact Or.inl ⟨rfl, rfl, rfl, rfl⟩
      | some nr =>
        obtain ⟨number, rest⟩ := nr
        refine Or.inr ⟨number, 0, ?_⟩
        simp [numTruthy]
  · simp only at hf hc ha
    subst hf; subst hc
    unfold stepCore
    by_cases h0 : pyStrip p = "" <;> simp only [h0, reduceIte]
    · have ht : numTruthy (some (n + m + 1)) = true := by simp [numTruthy]
      have ha' : List.isEmpty a = false := by
        simpa [List.isEmpty_iff] using ha
      refine Or.inr ⟨n, m, ?_⟩
      simp [ht, ha', hlog]
    · cases hm : reMatchNum (pyStrip p) with
      | none =>
        have ht : numTruthy (some (n + m + 1)) = true := by simp [numTruthy]
        refine Or.inr ⟨n, m, ?_⟩
        simp [ht, ha, hlog]
      | some nr =>
        obtain ⟨number, rest⟩ := nr
        by_cases he : number = n + m + 1
        · subst he
          have ha' : List.isEmpty a = false := by
            simpa [List.isEmpty_iff] using ha
          refine Or.inr ⟨n, m + 1, ?_⟩
          refine ⟨by simp, by simp; ring_nf, by simp, ?_⟩
          simp only [ha', Bool.not_false, reduceIte, List.map_append, hlog, List.range_succ,
            jokeKey_succ]
          simp [ha]
        · have hne : (some (n + m + 1) : Option Nat) ≠ some number := by
            simp; omega
          refine Or.inr ⟨n, m, ?_⟩
          simp only [Option.isNone_some, Bool.false_eq_true, reduceIte, hne, List.append_nil]
          simp [ha, hlog]

lemma traceInv_runCoreFrom (paras : List String) (c : CoreState)
    (log : List (String × String)) (h : TraceInv c log) :
    TraceInv (runCoreFrom c paras).1 (log ++ (runCoreFrom c paras).2) := by
  induction paras generalizing c log with
  | nil => simpa [runCoreFrom] using h
  | cons p t ih =>
    rw [runCoreFrom_cons]
    have := ih ((stepCore c p).1) (log ++ (stepCore c p).2) (traceInv_step c log p h)
    simpa [List.append_assoc] using this

lemma traceInv_runCore (paras : List String) :
    TraceInv (runCore paras).1 (runCore paras).2 := by
  have := traceInv_runCoreFrom paras ⟨none, none, []⟩ [] (Or.inl ⟨rfl, rfl, rfl, rfl⟩)
  simpa using this

lemma stepPara_nomatch_untouched (d : List (String × String)) (p : String)
    (h : reMatchNum (pyStrip p) = none) :
    stepPara ⟨d, none, none, []⟩ p = ⟨d, none, none, []⟩ := by
  unfold stepPara
  by_cases h0 : pyStrip p = "" <;> simp [h0, h, numTruthy]

lemma foldl_nomatch (d : List (String × String)) (ps : List String)
    (h : ∀ p ∈ ps, reMatchNum (pyStrip p) = none) :
    ps.foldl stepPara ⟨d, none, none, []⟩ = ⟨d, none, none, []⟩ := by
  induction ps with
  | nil => rfl
  | cons p t ih =>
    rw [List.foldl_cons, stepPara_nomatch_untouched d p (h p (by simp))]
    exact ih (fun q hq => h q (by simp [hq]))

/-- C1, counterexample: the output mapping is NOT private to one
invocation.  Segmenting `["2 Beta"]` on a crawler that has already
segmented `["1 Alpha"]` yields a mapping that still contains the earlier
run's entry under key "1", unlike a fresh run on `["2 Beta"]` alone, so
the mapping produced by a run does not reflect only that run's input. -/
theorem C1_shared_jokes_counterexample :
    extract_jokes [] ["1 Alpha"] = some [("1", "Alpha")] ∧
    extract_jokes [("1", "Alpha")] ["2 Beta"] = some [("1", "Alpha"), ("2", "Beta")] ∧
    segmentRun ["2 Beta"] = some [("2", "Beta")] ∧
    dictLookup [("1", "Alpha"), ("2", "Beta")] "1" = some "Alpha" ∧
    dictLookup [("2", "Beta")] "1" = none ∧
    some [("1", "Alpha"), ("2", "Beta")] ≠ some [("2", "Beta")] := by decide

/-- C1 (amended): the scan-local state (`first_number`, `current_number`,
accumulator) is fresh per invocation and the entries a run writes depend
only on that run's input, but the output dictionary `self.jokes` is shared
across invocations of the same crawler: segmenting `b` after earlier runs
left `dA` yields `dA` overlaid with the entries of a fresh run of `b` (the
fresh mapping takes precedence key-by-key, earlier entries persist). -/
theorem C1_run_writes_depend_only_on_input (dA dB dC : List (String × String))
    (b : List String)
    (hB : segmentRun b = some dB) (hC : extract_jokes dA b = some dC) :
    ∀ k, dictLookup dC k = (dictLookup dB k).or (dictLookup dA k) := by
  rw [segmentRun, extract_jokes_eq_runEntries] at hB
  rw [extract_jokes_eq_runEntries] at hC
  cases hre : runEntries b with
  | none => rw [hre] at hB; exact absurd hB (by simp)
  | some log =>
    rw [hre] at hB hC
    simp only [Option.map_some', Option.some.injEq] at hB hC
    subst hB; subst hC
    intro k
    rw [dictLookup_applyLog, dictLookup_applyLog]
    cases logLast log k <;> simp [Option.or, dictLookup_nil]

/-- C1 witness: instantiation of the amended statement at the
counterexample's inputs. -/
theorem C1_run_writes_depend_only_on_input_witness :
    dictLookup [("1", "Alpha"), ("2", "Beta")] "1" =
      (dictLookup [("2", "Beta")] "1").or (dictLookup [("1", "Alpha")] "1") :=
  C1_run_writes_depend_only_on_input [("1", "Alpha")] [("2", "Beta")]
    [("1", "Alpha"), ("2", "Beta")] ["2 Beta"] (by decide) (by decide) "1"

/-- C2: when a non-blank paragraph's leading number equals the current
expected number and the accumulator is non-empty, the step writes the
accumulator's lines joined by newline under key `str(expected_number - 1)`,
then sets the expected number to `number + 1` and resets the accumulator to
the single trimmed remainder of the matched line. -/
theorem C2_flush_on_expected_number (s : SegState) (p : String) (n : Nat) (rest : String)
    (h0 : pyStrip p ≠ "") (hm : reMatchNum (pyStrip p) = some (n, rest))
    (hc : s.currentNumber = some n) (ha : s.acc ≠ []) :
    (stepPara s p).jokes = dictSet s.jokes (toString ((n : Int) - 1)) (joinLines s.acc) ∧
    (stepPara s p).currentNumber = some (n + 1) ∧
    (stepPara s p).acc = [pyStrip rest] := by
  have ha' : List.isEmpty s.acc = false := by simpa [List.isEmpty_iff] using ha
  unfold stepPara
  by_cases hf : s.firstNumber.isNone <;>
    simp [h0, hm, hf, hc, ha', jokeKey]

/-- C2 witness: a concrete flush step. -/
theorem C2_flush_on_expected_number_witness :
    (stepPara ⟨[], some 1, some 2, ["Alpha"]⟩ "2 Beta").jokes =
      dictSet [] (toString ((2 : Int) - 1)) (joinLines ["Alpha"]) ∧
    (stepPara ⟨[], some 1, some 2, ["Alpha"]⟩ "2 Beta").currentNumber = some 3 ∧
    (stepPara ⟨[], some 1, some 2, ["Alpha"]⟩ "2 Beta").acc = [pyStrip "Beta"] :=
  C2_flush_on_expected_number ⟨[], some 1, some 2, ["Alpha"]⟩ "2 Beta" 2 "Beta"
    (by decide) (by decide) rfl (by decide)

/-- C3: on `["1 Alpha", "2 Beta", "3 Gamma"]` a fresh run produces exactly
the mapping 1 to Alpha, 2 to Beta, 3 to Gamma; during the pass only keys
"1" and "2" are written, the body under "3" being flushed from the
accumulator after the pass completes. -/
theorem C3_happy_path :
    segmentRun ["1 Alpha", "2 Beta", "3 Gamma"] =
      some [("1", "Alpha"), ("2", "Beta"), ("3", "Gamma")] ∧
    (runCore ["1 Alpha", "2 Beta", "3 Gamma"]).2 = [("1", "Alpha"), ("2", "Beta")] ∧
    (runCore ["1 Alpha", "2 Beta", "3 Gamma"]).1.acc = ["Gamma"] ∧
    runEntries ["1 Alpha", "2 Beta", "3 Gamma"] =
      some [("1", "Alpha"), ("2", "Beta"), ("3", "Gamma")] := by decide

/-- C4: in any reachable state, a non-blank paragraph whose leading number
differs from the current expected number neither starts a new entry nor
writes any output key: the whole step only appends the paragraph's full
trimmed text (digits included) to the accumulator, and in such a state an
entry is necessarily in progress (the accumulator is non-empty), so the
"no entry in progress" discard case of the spec cannot arise here. -/
theorem C4_out_of_sequence_number (s : SegState) (p : String) (n e : Nat) (rest : String)
    (hinv : invB s.core = true) (h0 : pyStrip p ≠ "")
    (hm : reMatchNum (pyStrip p) = some (n, rest))
    (hc : s.currentNumber = some e) (hne : n ≠ e) :
    stepPara s p = { s with acc := s.acc ++ [pyStrip p] } ∧ s.acc ≠ [] := by
  have hinv' := hinv
  rw [invB] at hinv'
  simp only [SegState.core] at hinv'
  rw [hc] at hinv'
  simp [List.isEmpty_iff] at hinv'
  obtain ⟨hfs, -, hane⟩ := hinv'
  have hf : s.firstNumber.isNone = false := by
    cases hfn : s.firstNumber with
    | none => rw [hfn] at hfs; simp at hfs
    | some x => rfl
  have hg : ¬(s.currentNumber = some n) := by
    rw [hc]
    intro hq
    exact hne (Option.some.inj hq).symm
  refine ⟨?_, hane⟩
  unfold stepPara
  simp [h0, hm, hf, hg]

/-- C4 witness: the out-of-sequence number 99 is folded into entry 1. -/
theorem C4_out_of_sequence_number_witness :
    stepPara ⟨[], some 1, some 2, ["Alpha"]⟩ "99 not a real entry" =
      { (⟨[], some 1, some 2, ["Alpha"]⟩ : SegState) with
          acc := ["Alpha"] ++ [pyStrip "99 not a real entry"] } ∧
    (["Alpha"] : List String) ≠ [] :=
  C4_out_of_sequence_number ⟨[], some 1, some 2, ["Alpha"]⟩ "99 not a real entry"
    99 2 "not a real entry" (by decide) (by decide) (by decide) rfl (by decide)

/-- C5: a paragraph that trims to the empty string appends exactly one
empty line to the accumulator when an entry is in progress (non-empty
accumulator) and leaves the state untouched otherwise; consequently the
body of entry 1 in `["1 Alpha", "", "still alpha", "2 Beta"]` is the three
lines Alpha, empty, still alpha joined by newlines. -/
theorem C5_blank_paragraph (s : SegState) (p : String)
    (hinv : invB s.core = true) (h0 : pyStrip p = "") :
    (s.acc ≠ [] → stepPara s p = { s with acc := s.acc ++ [""] }) ∧
    (s.acc = [] → stepPara s p = s) ∧
    segmentRun ["1 Alpha", "", "still alpha", "2 Beta"] =
      some [("1", "Alpha\n\nstill alpha"), ("2", "Beta")] := by
  refine ⟨?_, ?_, by decide⟩
  · intro ha
    have hinv' := hinv
    rw [invB] at hinv'
    simp only [SegState.core] at hinv'
    obtain ⟨c, hc, hc1⟩ : ∃ c, s.currentNumber = some c ∧ 1 ≤ c := by
      cases hcn : s.currentNumber with
      | none =>
        rw [hcn] at hinv'
        simp [List.isEmpty_iff] at hinv'
        exact absurd hinv'.2 ha
      | some c =>
        rw [hcn] at hinv'
        simp at hinv'
        exact ⟨c, rfl, hinv'.2.1⟩
    have ht : numTruthy s.currentNumber = true := by
      rw [hc]; simp [numTruthy]; omega
    have ha' : List.isEmpty s.acc = false := by simpa [List.isEmpty_iff] using ha
    unfold stepPara
    simp [h0, ht, ha']
  · intro ha
    unfold stepPara
    simp [h0, ha]

/-- C5 witness: a blank paragraph mid-entry appends one empty line; from
the fresh state it is skipped. -/
theorem C5_blank_paragraph_witness :
    ((["Alpha"] : List String) ≠ [] →
      stepPara ⟨[], some 1, some 2, ["Alpha"]⟩ "" =
        { (⟨[], some 1, some 2, ["Alpha"]⟩ : SegState) with acc := ["Alpha"] ++ [""] }) ∧
    ((["Alpha"] : List String) = [] → stepPara ⟨[], some 1, some 2, ["Alpha"]⟩ "" =
        ⟨[], some 1, some 2, ["Alpha"]⟩) ∧
    segmentRun ["1 Alpha", "", "still alpha", "2 Beta"] =
      some [("1", "Alpha\n\nstill alpha"), ("2", "Beta")] :=
  C5_blank_paragraph ⟨[], some 1, some 2, ["Alpha"]⟩ "" (by decide) (by decide)

/-- C6: paragraphs before the first one matching the leading-number
pattern leave a run's result unchanged (they contribute nothing to the
output), and a fresh run over a sequence in which no paragraph ever
matches (the empty sequence included) produces the empty mapping. -/
theorem C6_leading_noise_dropped (d : List (String × String)) (noise rest ps : List String)
    (hnoise : ∀ p ∈ noise, reMatchNum (pyStrip p) = none)
    (hps : ∀ p ∈ ps, reMatchNum (pyStrip p) = none) :
    extract_jokes d (noise ++ rest) = extract_jokes d rest ∧
    segmentRun ps = some [] := by
  constructor
  · unfold extract_jokes
    rw [List.foldl_append, foldl_nomatch d noise hnoise]
  · unfold segmentRun extract_jokes
    rw [foldl_nomatch [] ps hps]
    rfl

/-- C6 witness: preamble text before entry 1 is dropped; a sequence with
no numbered paragraph yields the empty mapping. -/
theorem C6_leading_noise_dropped_witness :
    (extract_jokes [] (["preamble text"] ++ ["1 Alpha", "2 Beta"]) =
      extract_jokes [] ["1 Alpha", "2 Beta"]) ∧
    segmentRun ["just text", "more text"] = some [] :=
  C6_leading_noise_dropped [] ["preamble text"] ["1 Alpha", "2 Beta"]
    ["just text", "more text"] (by decide) (by decide)

/-- C7: segmentation is total on every input and initial dictionary: the
run always produces a mapping (the modelled `TypeError` of the final flush
is unreachable), because the invariant holds at the end of every pass that
the accumulator is non-empty only when `current_number` is bound to an
integer (which in turn happens only after some leading number matched). -/
theorem C7_segmentation_total (d : List (String × String)) (paras : List String) :
    (extract_jokes d paras).isSome = true ∧ invB (runCore paras).1 = true := by
  refine ⟨?_, invB_runCore paras⟩
  rw [extract_jokes_eq_runEntries]
  have h := runEntries_isSome paras
  cases hre : runEntries paras with
  | none => rw [hre] at h; simp at h
  | some log => rfl

/-- C8: segmentation is deterministic and idempotent with respect to its
input: running `extract_jokes` a second time on the same paragraph
sequence (on the dictionary left by the first run) yields a mapping that
agrees with the first run's mapping on every key. -/
theorem C8_idempotent (d d1 d2 : List (String × String)) (ps : List String)
    (h1 : extract_jokes d ps = some d1) (h2 : extract_jokes d1 ps = some d2) :
    ∀ k, dictLookup d2 k = dictLookup d1 k := by
  rw [extract_jokes_eq_runEntries] at h1 h2
  cases hre : runEntries ps with
  | none => rw [hre] at h1; exact absurd h1 (by simp)
  | some log =>
    rw [hre] at h1 h2
    simp only [Option.map_some', Option.some.injEq] at h1 h2
    subst h1; subst h2
    intro k
    rw [dictLookup_applyLog, dictLookup_applyLog]
    cases logLast log k <;> simp [Option.or]

/-- C8 witness: re-running `["1 Alpha"]` on the mapping the first run
produced leaves the mapping unchanged at key "1". -/
theorem C8_idempotent_witness :
    extract_jokes [] ["1 Alpha"] = some [("1", "Alpha")] ∧
    dictLookup [("1", "Alpha")] "1" = dictLookup [("1", "Alpha")] "1" :=
  ⟨by decide,
   C8_idempotent [] [("1", "Alpha")] [("1", "Alpha")] ["1 Alpha"]
     (by decide) (by decide) "1"⟩

/-- C9: within one fresh run the expected number increases by one at every
entry start, so when the run opens at first number `n` and writes `m + 1`
entries, the keys written are exactly the decimal strings of the
consecutive integers `n, n + 1, ..., n + m`, in order, and no key is
written twice; when no paragraph ever matches, no key is written at all. -/
theorem C9_keys_consecutive_and_distinct (ps : List String)
    (log : List (String × String)) (h : runEntries ps = some log) :
    ((runCore ps).1.firstNumber = none → log = []) ∧
    (∀ n, (runCore ps).1.firstNumber = some n →
      log.map Prod.fst = (List.range log.length).map (fun i => Nat.repr (n + i)) ∧
      (log.map Prod.fst).Nodup) := by
  have T := traceInv_runCore ps
  rw [runEntries] at h
  rcases T with ⟨hf, hc, ha, hlog⟩ | ⟨n0, m, hf, hc, ha, hlog⟩
  · rw [ha] at h
    simp only [List.isEmpty_nil, reduceIte, Option.some.injEq] at h
    subst h
    exact ⟨fun _ => hlog, fun n hn => absurd hn (by rw [hf]; simp)⟩
  · have ha' : List.isEmpty (runCore ps).1.acc = false := by
      simpa [List.isEmpty_iff] using ha
    rw [ha', hc] at h
    simp only [Bool.false_eq_true, reduceIte, Option.some.injEq] at h
    subst h
    refine ⟨fun hn => absurd hn (by rw [hf]; simp), fun n hn => ?_⟩
    rw [hf, Option.some.injEq] at hn
    subst hn
    have hplen : (runCore ps).2.length = m := by
      have := congrArg List.length hlog
      simpa using this
    have hlen : ((runCore ps).2 ++ [(jokeKey (n0 + m + 1), joinLines (runCore ps).1.acc)]).length
        = m + 1 := by simp [hplen]
    have hkeys : ((runCore ps).2 ++
          [(jokeKey (n0 + m + 1), joinLines (runCore ps).1.acc)]).map Prod.fst =
        (List.range (m + 1)).map (fun i => Nat.repr (n0 + i)) := by
      rw [List.map_append, hlog, List.range_succ, List.map_append, jokeKey_succ]
      rfl
    rw [hlen, hkeys]
    refine ⟨rfl, List.Nodup.map ?_ (List.nodup_range (m + 1))⟩
    intro i j hij
    have := natRepr_injective (n0 + i) (n0 + j) hij
    omega

/-- C9 witness: the run over `["1 Alpha", "2 Beta"]` opens at 1 and writes
exactly the keys "1" and "2". -/
theorem C9_keys_consecutive_and_distinct_witness :
    runEntries ["1 Alpha", "2 Beta"] = some [("1", "Alpha"), ("2", "Beta")] ∧
    (runCore ["1 Alpha", "2 Beta"]).1.firstNumber = some 1 ∧
    (([("1", "Alpha"), ("2", "Beta")] : List (String × String)).map Prod.fst =
        (List.range ([("1", "Alpha"), ("2", "Beta")] : List (String × String)).length).map
          (fun i => Nat.repr (1 + i)) ∧
      (([("1", "Alpha"), ("2", "Beta")] : List (String × String)).map Prod.fst).Nodup) :=
  ⟨by decide, by decide,
   (C9_keys_consecutive_and_distinct ["1 Alpha", "2 Beta"]
     [("1", "Alpha"), ("2", "Beta")] (by decide)).2 1 (by decide)⟩

/-- C10: a paragraph that starts a new entry keeps only the text between
the matched digits and the first embedded newline as the entry's opening
line (the rest of that paragraph is dropped: the matched remainder can
never contain a newline), whereas continuation paragraphs, out-of-sequence
numbered ones included, are appended with their full text, embedded
newlines preserved. -/
theorem C10_embedded_newline (t : String) (n : Nat) (r : String)
    (hm : reMatchNum t = some (n, r)) :
    ('\n' ∉ r.data) ∧
    segmentRun ["1 Alpha\nmore alpha"] = some [("1", "Alpha")] ∧
    segmentRun ["1 Alpha", "99 line\nline2", "2 Beta"] =
      some [("1", "Alpha\n99 line\nline2"), ("2", "Beta")] ∧
    segmentRun ["1 Alpha", "cont\ninued", "2 Beta"] =
      some [("1", "Alpha\ncont\ninued"), ("2", "Beta")] := by
  refine ⟨?_, by decide, by decide, by decide⟩
  rw [reMatchNum] at hm
  by_cases hd : List.isEmpty ((t.data.dropWhile isPySpace).takeWhile Char.isDigit)
  · rw [if_pos hd] at hm
    exact absurd hm (by simp)
  · rw [if_neg hd] at hm
    simp only [Option.some.injEq, Prod.mk.injEq] at hm
    obtain ⟨-, hr⟩ := hm
    intro hmem
    rw [← hr] at hmem
    have := List.mem_takeWhile_imp hmem
    simp at this

/-- C10 witness: a matched opening line never contains a newline. -/
theorem C10_embedded_newline_witness :
    reMatchNum "1 a\nb" = some (1, "a") ∧ ('\n' ∉ ("a" : String).data) :=
  ⟨by decide, (C10_embedded_newline "1 a\nb" 1 "a" (by decide)).1⟩
